import Mathlib

/-!
Shallow embedding of `TxtClassify.py`: a toy PyTorch script that generates
random lowercase words, derives an 8-bit CRC checksum feature from each word,
and trains a small feed-forward classifier to predict the word's first letter.

Real-valued tensor arithmetic is modelled exactly over `ℚ`; the network is
embedded in evaluation mode (dropout is the identity, `BatchNorm1d(26)` is the
per-feature affine map whose coefficients fold the learned weight, bias and
running statistics, since its evaluation-mode action is exactly such an affine
map). Randomness (`np.random.randint`) is modelled by explicit draw streams
passed as arguments. Fallible tensor operations (shape mismatches raise in
PyTorch) return `Option`.
-/

set_option maxRecDepth 8000

namespace TxtClassify

/-! ### Random word generation (`build_simple`, `build_word`, `build_words`) -/

/-- `build_simple`: `chr(np.random.randint(0, 26) + ord('a'))`, with the random
draw in `[0, 26)` passed explicitly. -/
def build_simple (draw : Fin 26) : Char :=
  Char.ofNat (draw.val + 97)

/-- `build_word(word_len)`: the word built from `word_len` successive random
letter draws, paired with `ord(word[0]) - ord('a')`.  The word is a list of
characters; the label reads the first character (`headD 'a'` models `x[0]`,
which exists whenever `word_len ≥ 1`). -/
def build_word (word_len : ℕ) (draws : ℕ → Fin 26) : List Char × ℕ :=
  let x := (List.range word_len).map (fun i => build_simple (draws i))
  (x, (x.headD 'a').toNat - 97)

/-! ### CRC8/CCITT checksum (`build_crc_label`, via `crc.Calculator(crc.Crc8.CCITT)`)

`crc.Crc8.CCITT` is width 8, polynomial `0x07`, initial value `0x00`, final
xor `0x00`, no input/output reflection.  `checksum` folds the bytes through
the standard bitwise CRC register update. -/

/-- One bit of the CRC8 register update: shift left, xor the polynomial `0x07`
when the top bit was set, and keep 8 bits. -/
def crc8Bit (r : ℕ) : ℕ :=
  if r &&& 0x80 ≠ 0 then ((r <<< 1) ^^^ 0x07) &&& 0xFF else (r <<< 1) &&& 0xFF

/-- Absorb one input byte into the CRC8 register: xor it in, then run eight
bit steps. -/
def crc8Byte (r b : ℕ) : ℕ :=
  crc8Bit^[8] ((r ^^^ b) &&& 0xFF)

/-- CRC8/CCITT checksum of a byte sequence, initial register `0x00`. -/
def crc8 (bytes : List ℕ) : ℕ :=
  bytes.foldl crc8Byte 0

/-- The byte encoding of a generated word (`word.encode()`); the generated
characters are ASCII `'a'..'z'`, whose UTF-8 encoding is their code point. -/
def wordBytes (word : List Char) : List ℕ :=
  word.map Char.toNat

/-- `build_crc_label(word)`: the one-element list holding the CRC8/CCITT
checksum of the word's byte encoding. -/
def build_crc_label (word : List Char) : List ℕ :=
  [crc8 (wordBytes word)]

/-- `build_words(total_words_num, word_dim)`: builds `total_words_num` words.
`lenDraws i` models `np.random.randint(1, word_dim)` for the `i`-th word and
`letterDraws i` the letter draws of the `i`-th word.  Returns the triple
(words, crc feature rows, labels). -/
def build_words (total_words_num : ℕ) (lenDraws : ℕ → ℕ)
    (letterDraws : ℕ → ℕ → Fin 26) : List (List Char) × List (List ℕ) × List ℕ :=
  let samples := (List.range total_words_num).map
    (fun i => build_word (lenDraws i) (letterDraws i))
  (samples.map Prod.fst,
   samples.map (fun s => build_crc_label s.1),
   samples.map Prod.snd)

/-! ### The classifier (`TxtClassifyModel`)

A row (one sample's activation vector) is a `List ℚ`; inside a well-formed
forward pass every row has length 26.  The module holds:
  * `conv`   = `nn.Conv1d(batch_size, batch_size, 1)`;
  * `layer1` = `nn.Linear(1, 26)` (weight column `w1`, bias `b1`);
  * `layer2` = `nn.Linear(26, 26)` (weight rows `w2`, bias `b2`);
  * `batchnorm` = `nn.BatchNorm1d(26)`, one shared module applied three
    times; in evaluation mode it acts per feature as the affine map
    `v ↦ bnScale j * v + bnShift j` where `bnScale j = γ j / √(σ²ⱼ + ε)` and
    `bnShift j = β j - μ j * bnScale j` fold the learned parameters and the
    running statistics (we carry the folded coefficients);
  * `dropout` = `nn.Dropout(0.4)`, the identity in evaluation mode. -/

structure TxtClassifyModel where
  batch_size : ℕ
  /-- `conv.weight[o][i][0]` : `batch_size × batch_size` kernel-1 weights. -/
  convW : List (List ℚ)
  /-- `conv.bias[o]` : `batch_size` biases. -/
  convB : List ℚ
  /-- `layer1.weight[:,0]` : 26 weights of `nn.Linear(1, 26)`. -/
  w1 : List ℚ
  /-- `layer1.bias` : 26 biases. -/
  b1 : List ℚ
  /-- `layer2.weight` : 26 rows of 26 weights of `nn.Linear(26, 26)`. -/
  w2 : List (List ℚ)
  /-- `layer2.bias` : 26 biases. -/
  b2 : List ℚ
  /-- Evaluation-mode `BatchNorm1d(26)` per-feature scale. -/
  bnScale : List ℚ
  /-- Evaluation-mode `BatchNorm1d(26)` per-feature shift. -/
  bnShift : List ℚ
  deriving DecidableEq

/-- Shape well-formedness of the module parameters, as PyTorch constructs
them: conv weights are `batch_size × batch_size`, everything else is 26-wide. -/
def TxtClassifyModel.wf (m : TxtClassifyModel) : Prop :=
  m.convW.length = m.batch_size ∧ (∀ r ∈ m.convW, r.length = m.batch_size) ∧
  m.convB.length = m.batch_size ∧
  m.w1.length = 26 ∧ m.b1.length = 26 ∧
  m.w2.length = 26 ∧ (∀ r ∈ m.w2, r.length = 26) ∧ m.b2.length = 26 ∧
  m.bnScale.length = 26 ∧ m.bnShift.length = 26

instance (m : TxtClassifyModel) : Decidable m.wf := by
  unfold TxtClassifyModel.wf; infer_instance

/-- `self.layer1(x)` on one sample: the scalar feature `x` is mapped to the
26-vector `w1 j * x + b1 j`. -/
def layer1Apply (w b : List ℚ) (x : ℚ) : List ℚ :=
  List.zipWith (fun wj bj => wj * x + bj) w b

/-- Evaluation-mode `self.batchnorm(x)` on one row: per-feature affine map. -/
def bnApply (scale shift row : List ℚ) : List ℚ :=
  List.zipWith (fun p v => p.1 * v + p.2) (List.zip scale shift) row

/-- `relu` on one row. -/
def reluRow (row : List ℚ) : List ℚ :=
  row.map (fun v => max v 0)

/-- Dot product of two rows. -/
def dot (u v : List ℚ) : ℚ :=
  (List.zipWith (· * ·) u v).sum

/-- `self.layer2(x)` on one row: `out j = ⟨w2 j, row⟩ + b2 j`. -/
def layer2Apply (w : List (List ℚ)) (b : List ℚ) (row : List ℚ) : List ℚ :=
  List.zipWith (fun wrow bj => dot wrow row + bj) w b

/-- Pointwise sum of two rows (same length 26 in context). -/
def rowAdd (u v : List ℚ) : List ℚ :=
  List.zipWith (· + ·) u v

/-- `Σᵢ wᵢ • rowᵢ`, the channel mixing performed by a kernel-1 `Conv1d` for
one output channel: a weighted sum of all input rows, feature position by
feature position. -/
def convCombo (wrow : List ℚ) (rows : List (List ℚ)) : List ℚ :=
  (List.zipWith (fun wi r => r.map (wi * ·)) wrow rows).foldr rowAdd
    (List.replicate 26 0)

/-- `self.conv(x)` on a 2-D activation of shape `(batch, 26)`.  PyTorch treats
a 2-D input to `Conv1d` as unbatched `(channels, length)`, so the *batch*
dimension is the channel dimension: output row `o` is
`convB o + Σᵢ convW o i * rowᵢ`.  The operation is only defined when the
number of rows equals `batch_size` (the declared `in_channels`); otherwise
PyTorch raises a shape-mismatch error, modelled by `none`. -/
def convApply (m : TxtClassifyModel) (rows : List (List ℚ)) :
    Option (List (List ℚ)) :=
  if rows.length = m.batch_size then
    some (List.zipWith (fun wrow bo => (convCombo wrow rows).map (· + bo))
      m.convW m.convB)
  else none

/-- The first half of `forward`, up to and including the conv stage:
`layer1`, `batchnorm`, `relu`, `conv`.  Exposed separately because the claims
about the conv stage quantify over this intermediate value. -/
def postConv (m : TxtClassifyModel) (xs : List ℚ) : Option (List (List ℚ)) :=
  convApply m
    ((xs.map (layer1Apply m.w1 m.b1)).map
      (fun r => reluRow (bnApply m.bnScale m.bnShift r)))

/-- `forward(x)` with `y = None`, in evaluation mode: the full stage sequence
`layer1 → batchnorm → relu → conv → batchnorm → relu → layer2 → batchnorm →
relu → dropout` (dropout is the identity in evaluation mode), returning the
`(batch, 26)` score matrix, or `none` on the conv shape mismatch. -/
def forward_scores (m : TxtClassifyModel) (xs : List ℚ) :
    Option (List (List ℚ)) :=
  (postConv m xs).map (fun h3 =>
    ((h3.map (fun r => reluRow (bnApply m.bnScale m.bnShift r))).map
      (layer2Apply m.w2 m.b2)).map
      (fun r => reluRow (bnApply m.bnScale m.bnShift r)))

/-- `nn.functional.cross_entropy` of a score matrix against integer class
labels, mean reduction: `(Σₖ log (Σⱼ exp sₖⱼ) - sₖ,yₖ) / N`.  The logarithm
and exponential live in `ℝ`, so the loss value does too. -/
noncomputable def crossEntropy (scores : List (List ℚ)) (ys : List ℕ) : ℝ :=
  let terms := (List.zip scores ys).map (fun py =>
    Real.log (((py.1.map (fun s => Real.exp (s : ℝ))).sum)) -
      ((py.1.getD py.2 0 : ℚ) : ℝ))
  terms.sum / terms.length

/-- `forward(x, y)` with labels: the same stage sequence, then the scalar
cross-entropy loss of the final activations against `y`. -/
noncomputable def forward_loss (m : TxtClassifyModel) (xs : List ℚ)
    (ys : List ℕ) : Option ℝ :=
  (forward_scores m xs).map (fun scores => crossEntropy scores ys)

/-! ### Evaluation routine (`evaluate`) -/

/-- `np.max(p.numpy())` on a (nonempty) score row: its greatest entry. -/
def rowMax (r : List ℚ) : ℚ :=
  r.foldl max (r.headD 0)

/-- `np.argmax` on a score row: the first index attaining the maximum. -/
def rowArgmax (r : List ℚ) : ℕ :=
  r.findIdx (fun v => decide (v = rowMax r))

/-- The counting loop of `evaluate`: over `zip(pred, labels)`, a pair is
counted correct exactly when `np.max(p.numpy()) == t`, i.e. when the greatest
score *value* equals the integer label; otherwise it is counted wrong. -/
def evalCounts (pred : List (List ℚ)) (labels : List ℕ) : ℕ × ℕ :=
  (List.zip pred labels).foldl
    (fun cw pt =>
      if rowMax pt.1 = (pt.2 : ℚ) then (cw.1 + 1, cw.2) else (cw.1, cw.2 + 1))
    (0, 0)

/-- The feature tensor `torch.FloatTensor(crclabels)` of shape `(n, 1)`:
each one-element crc row becomes one scalar sample. -/
def featureTensor (crclabels : List (List ℕ)) : List ℚ :=
  crclabels.map (fun row => (row.headD 0 : ℚ))

/-- `evaluate(model, sample_size, word_dim)`: generate `sample_size` fresh
samples (`lenDraws` models `np.random.randint(1, word_dim)`), run the model
on their features, count correct/wrong with the value-vs-label comparison and
return `(correct, wrong, correct / (correct + wrong))`; `none` when the
forward pass raises the conv shape mismatch. -/
def evaluate (m : TxtClassifyModel) (sample_size : ℕ)
    (lenDraws : ℕ → ℕ) (letterDraws : ℕ → ℕ → Fin 26) : Option (ℕ × ℕ × ℚ) :=
  let wcl := build_words sample_size lenDraws letterDraws
  (forward_scores m (featureTensor wcl.2.1)).map (fun pred =>
    let cw := evalCounts pred wcl.2.2
    (cw.1, cw.2, (cw.1 : ℚ) / ((cw.1 : ℚ) + (cw.2 : ℚ))))

/-! ### Persistence (`torch.save` / `torch.load` / `load_state_dict`) -/

/-- The persisted artifact: `model.state_dict()`, the module's learnable
parameters and (folded) batch-norm statistics. -/
structure StateDict where
  convW : List (List ℚ)
  convB : List ℚ
  w1 : List ℚ
  b1 : List ℚ
  w2 : List (List ℚ)
  b2 : List ℚ
  bnScale : List ℚ
  bnShift : List ℚ
  deriving DecidableEq

/-- `model.state_dict()`. -/
def TxtClassifyModel.state_dict (m : TxtClassifyModel) : StateDict :=
  ⟨m.convW, m.convB, m.w1, m.b1, m.w2, m.b2, m.bnScale, m.bnShift⟩

/-- `torch.save` to a file followed by `torch.load` from it: the framework's
native serialization round-trips the state dict unchanged. -/
def save_then_load (sd : StateDict) : StateDict := sd

/-- `model.load_state_dict(sd)` (strict mode): succeeds when every entry of
the dict matches the shape the freshly constructed module expects (conv
tensors sized by `base.batch_size`, everything else 26-wide), replacing all
of the module's parameters; raises (`none`) on any shape mismatch. -/
def load_state_dict (base : TxtClassifyModel) (sd : StateDict) :
    Option TxtClassifyModel :=
  if sd.convW.length = base.batch_size ∧
      (∀ r ∈ sd.convW, r.length = base.batch_size) ∧
      sd.convB.length = base.batch_size ∧
      sd.w1.length = 26 ∧ sd.b1.length = 26 ∧
      sd.w2.length = 26 ∧ (∀ r ∈ sd.w2, r.length = 26) ∧ sd.b2.length = 26 ∧
      sd.bnScale.length = 26 ∧ sd.bnShift.length = 26 then
    some ⟨base.batch_size, sd.convW, sd.convB, sd.w1, sd.b1, sd.w2, sd.b2,
      sd.bnScale, sd.bnShift⟩
  else none

/-- The inference part of `predict(model_path, sample)`: construct
`TxtClassifyModel(25)` (the freshly initialized module is `init`, whose
random initial parameters are about to be overwritten), load the saved
weights, and run the forward pass on the sample's feature rows.  The final
softmax and printing only format this matrix. -/
def predict_forward (init : TxtClassifyModel) (sd : StateDict)
    (crclabels : List (List ℕ)) : Option (List (List ℚ)) :=
  (load_state_dict init sd).bind
    (fun model => forward_scores model (featureTensor crclabels))

/-! ### Training driver (`main`) -/

/-- `word_dim = 10`: the exclusive upper bound on word lengths. -/
def word_dim : ℕ := 10

/-- `epoch_num = 500`. -/
def epoch_num : ℕ := 500

/-- `batch_size = 25`. -/
def batch_size : ℕ := 25

/-- `train_sample = 5000`. -/
def train_sample : ℕ := 5000

/-- `np.mean` of the watched losses. -/
def meanQ (l : List ℚ) : ℚ := l.sum / (l.length : ℚ)

/-- The batch slices of one epoch: for `batch_index` in
`range (train_sample // batch_size)`, the consecutive slice
`data[batch_index * bs : (batch_index + 1) * bs]` of the fixed training
lists (features and labels sliced in lockstep). -/
def mainBatches (bs n : ℕ) (crcl : List (List ℕ)) (labels : List ℕ) :
    List (List (List ℕ) × List ℕ) :=
  (List.range (n / bs)).map
    (fun i => ((crcl.drop (i * bs)).take bs, (labels.drop (i * bs)).take bs))

/-- The inner loop of one epoch: fold the optimizer step over the batches in
order, collecting `loss.item()` into `watch_loss`.  The combined effect of
`model(...)`, `loss.backward()`, `optim.step()`, `optim.zero_grad()` on the
training state (parameters plus Adam moments) is the abstract `step`, which
returns the updated state and the batch loss. -/
def runEpoch {S ι : Type} (step : S → ι → S × ℚ) (s : S) (batches : List ι) :
    S × List ℚ :=
  batches.foldl (fun acc b => ((step acc.1 b).1, acc.2 ++ [(step acc.1 b).2]))
    (s, [])

/-- The epoch loop of `main`: for each `epoch` in `range epochs`, run one
epoch of training over the (fixed) batches, then evaluate on a freshly
generated batch (`evalF s epoch`, whose second argument indexes the fresh
randomness of that epoch's `evaluate` call) and append
`[acc, np.mean(watch_loss)]` to the log. -/
def trainLoop {S ι : Type} (step : S → ι → S × ℚ) (evalF : S → ℕ → ℚ)
    (s0 : S) (batches : List ι) (epochs : ℕ) : S × List (ℚ × ℚ) :=
  (List.range epochs).foldl (fun acc e =>
    ((runEpoch step acc.1 batches).1,
      acc.2 ++ [(evalF (runEpoch step acc.1 batches).1 e,
        meanQ (runEpoch step acc.1 batches).2)]))
    (s0, [])

/-- `main`, up to the plotting calls: build the one fixed synthetic training
set of `train_sample` samples, then run `epoch_num` epochs of `trainLoop`
over its `train_sample // batch_size` consecutive batch slices. -/
def main_train {S : Type} (step : S → List (List ℕ) × List ℕ → S × ℚ)
    (evalF : S → ℕ → ℚ) (s0 : S) (lenDraws : ℕ → ℕ)
    (letterDraws : ℕ → ℕ → Fin 26) : S × List (ℚ × ℚ) :=
  let tr := build_words train_sample lenDraws letterDraws
  trainLoop step evalF s0 (mainBatches batch_size train_sample tr.2.1 tr.2.2)
    epoch_num

/-! ### Basic bounds on the checksum register -/

theorem crc8Bit_lt (r : ℕ) : crc8Bit r < 256 := by
  unfold crc8Bit
  split <;> exact Nat.lt_succ_of_le (Nat.and_le_right)

theorem crc8Byte_lt (r b : ℕ) : crc8Byte r b < 256 := by
  unfold crc8Byte
  have h : ∀ n x, 0 < n → crc8Bit^[n] x < 256 := by
    intro n
    induction n with
    | zero => intro x hx; exact absurd hx (Nat.lt_irrefl 0)
    | succ k ih =>
      intro x _
      rw [Function.iterate_succ_apply]
      cases Nat.eq_zero_or_pos k with
      | inl hk => subst hk; simpa using crc8Bit_lt x
      | inr hk => exact ih _ hk
  exact h 8 _ (by decide)

theorem crc8_lt (bytes : List ℕ) : crc8 bytes < 256 := by
  unfold crc8
  induction bytes with
  | nil => decide
  | cons b bs ih =>
    have : ∀ (l : List ℕ) (r : ℕ), r < 256 → l.foldl crc8Byte r < 256 := by
      intro l
      induction l with
      | nil => intro r hr; simpa using hr
      | cons c cs ihc => intro r _; exact ihc _ (crc8Byte_lt r c)
    exact this (b :: bs) 0 (by decide)

/-! ### Helper lemmas: shapes of generated data and of the forward pass -/

theorem build_words_lengths (n : ℕ) (lenDraws : ℕ → ℕ)
    (letterDraws : ℕ → ℕ → Fin 26) :
    (build_words n lenDraws letterDraws).1.length = n ∧
    (build_words n lenDraws letterDraws).2.1.length = n ∧
    (build_words n lenDraws letterDraws).2.2.length = n := by
  simp [build_words]

theorem layer1Apply_length (w b : List ℚ) (x : ℚ) :
    (layer1Apply w b x).length = min w.length b.length := by
  simp [layer1Apply]

theorem bnApply_length (scale shift row : List ℚ) :
    (bnApply scale shift row).length =
      min (min scale.length shift.length) row.length := by
  simp [bnApply]

theorem reluRow_length (row : List ℚ) : (reluRow row).length = row.length := by
  simp [reluRow]

theorem layer2Apply_length (w : List (List ℚ)) (b : List ℚ) (row : List ℚ) :
    (layer2Apply w b row).length = min w.length b.length := by
  simp [layer2Apply]

theorem convCombo_length (wrow : List ℚ) (rows : List (List ℚ))
    (h : ∀ r ∈ rows, r.length = 26) : (convCombo wrow rows).length = 26 := by
  induction rows generalizing wrow with
  | nil => cases wrow <;> simp [convCombo]
  | cons r rs ih =>
    cases wrow with
    | nil => simp [convCombo]
    | cons w ws =>
      have h1 : r.length = 26 := h r (by simp)
      have h2 := ih ws (fun u hu => h u (by simp [hu]))
      simp only [convCombo] at h2 ⊢
      simp only [List.zipWith_cons_cons, List.foldr_cons]
      simp only [rowAdd, List.length_zipWith, List.length_map, h1, h2]
      simp

theorem exists_of_zipWith_mem {α β γ : Type} {f : α → β → γ} :
    ∀ {as : List α} {bs : List β} {c : γ}, c ∈ List.zipWith f as bs →
      ∃ a b, a ∈ as ∧ b ∈ bs ∧ c = f a b := by
  intro as
  induction as with
  | nil => intro bs c hc; simp at hc
  | cons a as ih =>
    intro bs c hc
    cases bs with
    | nil => simp at hc
    | cons b bs =>
      rw [List.zipWith_cons_cons, List.mem_cons] at hc
      rcases hc with hc | hc
      · exact ⟨a, b, by simp, by simp, hc⟩
      · obtain ⟨a', b', ha', hb', rfl⟩ := ih hc
        exact ⟨a', b', by simp [ha'], by simp [hb'], rfl⟩

/-- The row that `normalize → rectify` produces from a 26-wide row is 26
wide, for a well-formed model. -/
theorem bnRelu_length (m : TxtClassifyModel) (hwf : m.wf) (row : List ℚ)
    (h : row.length = 26) :
    (reluRow (bnApply m.bnScale m.bnShift row)).length = 26 := by
  obtain ⟨-, -, -, -, -, -, -, -, h9, h10⟩ := hwf
  simp [reluRow_length, bnApply_length, h9, h10, h]

/-- Success and output shape of the forward pass: for a well-formed model and
an input whose batch dimension matches `batch_size`, the forward pass returns
a `batch_size × 26` score matrix. -/
theorem forward_scores_spec (m : TxtClassifyModel) (xs : List ℚ)
    (hwf : m.wf) (hlen : xs.length = m.batch_size) :
    ∃ scores, forward_scores m xs = some scores ∧
      scores.length = m.batch_size ∧ ∀ r ∈ scores, r.length = 26 := by
  obtain ⟨h1, h2, h3, h4, h5, h6, h7, h8, h9, h10⟩ := hwf
  have hwf' : m.wf := ⟨h1, h2, h3, h4, h5, h6, h7, h8, h9, h10⟩
  set rows := (xs.map (layer1Apply m.w1 m.b1)).map
    (fun r => reluRow (bnApply m.bnScale m.bnShift r)) with hrows
  have hrlen : rows.length = m.batch_size := by simp [hrows, hlen]
  have hrow26 : ∀ r ∈ rows, r.length = 26 := by
    intro r hr
    rw [hrows] at hr
    obtain ⟨s, hs, rfl⟩ := List.mem_map.1 hr
    obtain ⟨x, -, rfl⟩ := List.mem_map.1 hs
    apply bnRelu_length m hwf'
    simp [layer1Apply_length, h4, h5]
  set convOut := List.zipWith
    (fun wrow bo => (convCombo wrow rows).map (· + bo)) m.convW m.convB
    with hco
  have hconv : postConv m xs = some convOut := by
    simp [postConv, convApply, hco, ← hrows, hrlen]
  have hconvLen : convOut.length = m.batch_size := by
    simp [hco, List.length_zipWith, h1, h3]
  refine ⟨((convOut.map (fun r => reluRow (bnApply m.bnScale m.bnShift r))).map
      (layer2Apply m.w2 m.b2)).map
      (fun r => reluRow (bnApply m.bnScale m.bnShift r)), ?_, ?_, ?_⟩
  · simp [forward_scores, hconv]
  · simp [hconvLen]
  · intro r hr
    obtain ⟨s, hs, rfl⟩ := List.mem_map.1 hr
    apply bnRelu_length m hwf'
    obtain ⟨u, -, rfl⟩ := List.mem_map.1 hs
    simp [layer2Apply_length, h6, h8]

theorem evalCounts_foldl (l : List (List ℚ × ℕ)) (c w : ℕ) :
    l.foldl (fun cw pt =>
        if rowMax pt.1 = (pt.2 : ℚ) then (cw.1 + 1, cw.2) else (cw.1, cw.2 + 1))
      (c, w) =
      (c + l.countP (fun pt => decide (rowMax pt.1 = (pt.2 : ℚ))),
       w + l.countP (fun pt => !decide (rowMax pt.1 = (pt.2 : ℚ)))) := by
  induction l generalizing c w with
  | nil => simp
  | cons pt l ih =>
    by_cases h : rowMax pt.1 = (pt.2 : ℚ) <;>
      simp [List.countP_cons, h, ih] <;> omega

theorem toNat_build_simple (d : Fin 26) : (build_simple d).toNat = d.val + 97 := by
  revert d; decide

theorem build_word_head (k : ℕ) (draws : ℕ → Fin 26) :
    (build_word (k + 1) draws).1.headD 'a' = build_simple (draws 0) := by
  simp [build_word, List.range_succ_eq_map]

/-! ### The claims -/

/-- C1: in `evaluate`, a scored sample is counted correct exactly when the
numeric value of the highest entry of its 26-dimensional score row equals the
integer label (`np.max(p.numpy()) == t`), not when the arg-max position
equals the label: the counting loop counts by the value-vs-label test, and
the value test and the arg-max test disagree in both directions. -/
theorem evaluate_counts_value_not_argmax :
    (∀ (pred : List (List ℚ)) (labels : List ℕ),
      evalCounts pred labels =
        ((List.zip pred labels).countP
            (fun pt => decide (rowMax pt.1 = (pt.2 : ℚ))),
         (List.zip pred labels).countP
            (fun pt => !decide (rowMax pt.1 = (pt.2 : ℚ))))) ∧
    (∃ (p : List ℚ) (t : ℕ), p.length = 26 ∧
      rowMax p = (t : ℚ) ∧ rowArgmax p ≠ t) ∧
    (∃ (p : List ℚ) (t : ℕ), p.length = 26 ∧
      rowArgmax p = t ∧ rowMax p ≠ (t : ℚ)) := by
  refine ⟨?_, ?_, ?_⟩
  · intro pred labels
    unfold evalCounts
    rw [evalCounts_foldl]
    simp
  · exact ⟨(5 : ℚ) :: List.replicate 25 0, 5, by decide, by decide, by decide⟩
  · exact ⟨(7 : ℚ) :: List.replicate 25 0, 0, by decide, by decide, by decide⟩

/-- C3: for every word length at least 1 (as produced by
`np.random.randint(1, word_dim)`), the label `build_word` returns is the
alphabetic rank of the word's first character, an integer in `[0, 26)`. -/
theorem build_word_label_spec (word_len : ℕ) (draws : ℕ → Fin 26)
    (h : 1 ≤ word_len) :
    (build_word word_len draws).1 ≠ [] ∧
    (build_word word_len draws).2 =
      ((build_word word_len draws).1.headD 'a').toNat - 97 ∧
    (build_word word_len draws).2 = (draws 0).val ∧
    (build_word word_len draws).2 < 26 := by
  obtain ⟨k, rfl⟩ : ∃ k, word_len = k + 1 := ⟨word_len - 1, by omega⟩
  have hd := (draws 0).isLt
  refine ⟨?_, rfl, ?_, ?_⟩
  · simp [build_word]
  · show ((build_word (k + 1) draws).1.headD 'a').toNat - 97 = (draws 0).val
    rw [build_word_head, toNat_build_simple]
    omega
  · show ((build_word (k + 1) draws).1.headD 'a').toNat - 97 < 26
    rw [build_word_head, toNat_build_simple]
    omega

/-- Witness for C3 at `word_len = 3` with every letter draw equal to 4. -/
theorem build_word_label_spec_witness :
    1 ≤ 3 ∧
    ((build_word 3 (fun _ => (4 : Fin 26))).1 ≠ [] ∧
     (build_word 3 (fun _ => (4 : Fin 26))).2 =
       ((build_word 3 (fun _ => (4 : Fin 26))).1.headD 'a').toNat - 97 ∧
     (build_word 3 (fun _ => (4 : Fin 26))).2 = ((4 : Fin 26)).val ∧
     (build_word 3 (fun _ => (4 : Fin 26))).2 < 26) :=
  ⟨by decide, build_word_label_spec 3 (fun _ => (4 : Fin 26)) (by decide)⟩

/-- C4: the checksum feature is a one-element list holding an integer in
`[0, 255]`, and it is a pure function of the word's byte encoding: any two
words with the same bytes get the same feature. -/
theorem build_crc_label_spec (w₁ w₂ : List Char)
    (h : wordBytes w₁ = wordBytes w₂) :
    build_crc_label w₁ = [crc8 (wordBytes w₁)] ∧
    crc8 (wordBytes w₁) ≤ 255 ∧
    build_crc_label w₁ = build_crc_label w₂ := by
  refine ⟨rfl, ?_, ?_⟩
  · have := crc8_lt (wordBytes w₁); omega
  · simp [build_crc_label, h]

/-- Witness for C4 on the word "ab". -/
theorem build_crc_label_spec_witness :
    wordBytes ['a', 'b'] = wordBytes ['a', 'b'] ∧
    (build_crc_label ['a', 'b'] = [crc8 (wordBytes ['a', 'b'])] ∧
     crc8 (wordBytes ['a', 'b']) ≤ 255 ∧
     build_crc_label ['a', 'b'] = build_crc_label ['a', 'b']) :=
  ⟨rfl, build_crc_label_spec ['a', 'b'] ['a', 'b'] rfl⟩

/-- A concrete module instance used to exercise the theorems on explicit
inputs: every weight 1, every bias 0, identity batch-norm coefficients. -/
def demoModel (bs : ℕ) : TxtClassifyModel where
  batch_size := bs
  convW := List.replicate bs (List.replicate bs 1)
  convB := List.replicate bs 0
  w1 := List.replicate 26 1
  b1 := List.replicate 26 0
  w2 := List.replicate 26 (List.replicate 26 1)
  b2 := List.replicate 26 0
  bnScale := List.replicate 26 1
  bnShift := List.replicate 26 0

theorem countP_pos_neg_length {α : Type} (p : α → Bool) (l : List α) :
    l.countP p + l.countP (fun a => !p a) = l.length := by
  induction l with
  | nil => simp
  | cons a l ih => by_cases h : p a <;> simp [List.countP_cons, h] <;> omega

theorem evalCounts_spec (pred : List (List ℚ)) (labels : List ℕ) :
    evalCounts pred labels =
      ((pred.zip labels).countP (fun pt => decide (rowMax pt.1 = (pt.2 : ℚ))),
       (pred.zip labels).countP
         (fun pt => !decide (rowMax pt.1 = (pt.2 : ℚ)))) := by
  unfold evalCounts
  rw [evalCounts_foldl]
  simp

theorem forward_scores_isSome_iff (m : TxtClassifyModel) (xs : List ℚ) :
    (forward_scores m xs).isSome ↔ xs.length = m.batch_size := by
  by_cases hx : xs.length = m.batch_size <;>
    simp [forward_scores, postConv, convApply, hx]

theorem load_state_dict_batch_size (base m' : TxtClassifyModel)
    (sd : StateDict) (h : load_state_dict base sd = some m') :
    m'.batch_size = base.batch_size := by
  unfold load_state_dict at h
  split at h
  · cases h; rfl
  · cases h

/-- C5: for an input batch matching the constructed batch size, `forward`
without labels returns a `batch_size × 26` matrix of unnormalized scores, and
with a batch of integer labels it returns the single scalar cross-entropy
loss of those scores over the batch. -/
theorem forward_output_shape (m : TxtClassifyModel) (xs : List ℚ)
    (hwf : m.wf) (hlen : xs.length = m.batch_size) :
    ∃ scores, forward_scores m xs = some scores ∧
      scores.length = m.batch_size ∧ (∀ r ∈ scores, r.length = 26) ∧
      ∀ ys, forward_loss m xs ys = some (crossEntropy scores ys) := by
  obtain ⟨scores, hs, h1, h2⟩ := forward_scores_spec m xs hwf hlen
  exact ⟨scores, hs, h1, h2, fun ys => by simp [forward_loss, hs]⟩

/-- Witness for C5: the all-ones model of batch size 25 on a zero batch. -/
theorem forward_output_shape_witness :
    (demoModel 25).wf ∧
    (List.replicate 25 (0 : ℚ)).length = (demoModel 25).batch_size ∧
    ∃ scores, forward_scores (demoModel 25) (List.replicate 25 0) = some scores ∧
      scores.length = (demoModel 25).batch_size ∧
      (∀ r ∈ scores, r.length = 26) ∧
      ∀ ys, forward_loss (demoModel 25) (List.replicate 25 0) ys =
        some (crossEntropy scores ys) :=
  ⟨by decide, by decide,
   forward_output_shape (demoModel 25) (List.replicate 25 0) (by decide)
     (by decide)⟩

/-- C9: every evaluation call with `sample_size ≥ 1` whose forward pass is
defined (its batch matches the model's `batch_size`) counts
`correct + wrong = sample_size` samples, divides by the nonzero total, and
returns an accuracy in `[0, 1]`. -/
theorem evaluate_accuracy_valid (m : TxtClassifyModel) (sample_size : ℕ)
    (lenDraws : ℕ → ℕ) (letterDraws : ℕ → ℕ → Fin 26)
    (h1 : 1 ≤ sample_size) (h2 : m.batch_size = sample_size) (hwf : m.wf) :
    ∃ c w acc, evaluate m sample_size lenDraws letterDraws = some (c, w, acc) ∧
      c + w = sample_size ∧ 0 < c + w ∧
      acc = (c : ℚ) / ((c : ℚ) + (w : ℚ)) ∧ 0 ≤ acc ∧ acc ≤ 1 := by
  have hfl : (featureTensor
      (build_words sample_size lenDraws letterDraws).2.1).length =
      m.batch_size := by
    simp [featureTensor, build_words, h2]
  obtain ⟨scores, hs, hslen, -⟩ := forward_scores_spec m _ hwf hfl
  have hlablen : (build_words sample_size lenDraws letterDraws).2.2.length =
      sample_size := by
    simp [build_words]
  set labels := (build_words sample_size lenDraws letterDraws).2.2 with hlab
  have hziplen : (scores.zip labels).length = sample_size := by
    simp [List.length_zip, hslen, hlablen, h2]
  have hsum : (evalCounts scores labels).1 + (evalCounts scores labels).2 =
      sample_size := by
    rw [evalCounts_spec]
    simpa [countP_pos_neg_length] using hziplen
  refine ⟨(evalCounts scores labels).1, (evalCounts scores labels).2, _,
    ?_, hsum, by omega, rfl, ?_, ?_⟩
  · simp [evaluate, hs, ← hlab]
  · positivity
  · have hden : (0 : ℚ) < ((evalCounts scores labels).1 : ℚ) +
        ((evalCounts scores labels).2 : ℚ) := by
      have : 0 < (evalCounts scores labels).1 + (evalCounts scores labels).2 := by
        omega
      exact_mod_cast this
    rw [div_le_one hden]
    have : ((evalCounts scores labels).1 : ℚ) ≤
        ((evalCounts scores labels).1 : ℚ) +
          ((evalCounts scores labels).2 : ℚ) := by
      have : (0 : ℚ) ≤ ((evalCounts scores labels).2 : ℚ) := by positivity
      linarith
    exact this

/-- Witness for C9: the all-ones model of batch size 1 evaluated on one
sample. -/
theorem evaluate_accuracy_valid_witness :
    1 ≤ 1 ∧ (demoModel 1).batch_size = 1 ∧ (demoModel 1).wf ∧
    ∃ c w acc,
      evaluate (demoModel 1) 1 (fun _ => 1) (fun _ _ => 0) = some (c, w, acc) ∧
      c + w = 1 ∧ 0 < c + w ∧
      acc = (c : ℚ) / ((c : ℚ) + (w : ℚ)) ∧ 0 ≤ acc ∧ acc ≤ 1 :=
  ⟨le_refl 1, rfl, by decide,
   evaluate_accuracy_valid (demoModel 1) 1 (fun _ => 1) (fun _ _ => 0)
     (le_refl 1) rfl (by decide)⟩

/-- C6: for a defined forward pass, the stages are applied exactly in the
order linear 1→26, batch-norm, ReLU, kernel-1 conv, batch-norm, ReLU, linear
26→26, batch-norm, ReLU, dropout (the identity in evaluation mode), and the
optional cross-entropy loss comes only after all of them. -/
theorem forward_stage_order (m : TxtClassifyModel) (xs : List ℚ)
    (h : xs.length = m.batch_size) :
    forward_scores m xs = some (
      let a1 := xs.map (layer1Apply m.w1 m.b1)
      let a2 := a1.map (bnApply m.bnScale m.bnShift)
      let a3 := a2.map reluRow
      let a4 := List.zipWith
        (fun wrow bo => (convCombo wrow a3).map (· + bo)) m.convW m.convB
      let a5 := a4.map (bnApply m.bnScale m.bnShift)
      let a6 := a5.map reluRow
      let a7 := a6.map (layer2Apply m.w2 m.b2)
      let a8 := a7.map (bnApply m.bnScale m.bnShift)
      let a9 := a8.map reluRow
      a9) ∧
    ∀ ys, forward_loss m xs ys =
      (forward_scores m xs).map (fun scores => crossEntropy scores ys) := by
  refine ⟨?_, fun ys => rfl⟩
  simp only [forward_scores, postConv, convApply]
  rw [if_pos (by simp [h])]
  simp [List.map_map, Function.comp_def]

/-- Witness for C6: the all-ones model of batch size 25 on a zero batch. -/
theorem forward_stage_order_witness :
    (List.replicate 25 (0 : ℚ)).length = (demoModel 25).batch_size ∧
    ∃ out, forward_scores (demoModel 25) (List.replicate 25 0) = some out :=
  ⟨by decide,
   ⟨_, (forward_stage_order (demoModel 25) (List.replicate 25 0) (by decide)).1⟩⟩

/-- C10: the forward pass is defined exactly when the input's batch dimension
equals the constructed `batch_size` (the kernel-1 conv takes the batch
dimension as its channel dimension, so any other size reaches the
shape-mismatch error branch), and both the evaluation routine (called with
`sample_size = batch_size`) and the prediction routine (a loaded model with
an equally sized sample batch) satisfy this precondition. -/
theorem forward_batch_size_precondition :
    (∀ (m : TxtClassifyModel) (xs : List ℚ),
      (forward_scores m xs).isSome ↔ xs.length = m.batch_size) ∧
    (∀ (m : TxtClassifyModel) (sample_size : ℕ) (lenDraws : ℕ → ℕ)
      (letterDraws : ℕ → ℕ → Fin 26), sample_size = m.batch_size →
      (evaluate m sample_size lenDraws letterDraws).isSome) ∧
    (∀ (init m' : TxtClassifyModel) (sd : StateDict)
      (crclabels : List (List ℕ)), load_state_dict init sd = some m' →
      crclabels.length = init.batch_size →
      (predict_forward init sd crclabels).isSome) := by
  refine ⟨forward_scores_isSome_iff, ?_, ?_⟩
  · intro m n lenD letD h
    have hl : (featureTensor (build_words n lenD letD).2.1).length =
        m.batch_size := by
      simp [featureTensor, build_words, ← h]
    have := (forward_scores_isSome_iff m
      (featureTensor (build_words n lenD letD).2.1)).2 hl
    rw [Option.isSome_iff_exists] at this
    obtain ⟨scores, hs⟩ := this
    simp [evaluate, hs]
  · intro init m' sd crcl hload hlen
    have hb := load_state_dict_batch_size init m' sd hload
    have : (forward_scores m' (featureTensor crcl)).isSome := by
      rw [forward_scores_isSome_iff]
      simp [featureTensor, hlen, hb]
    rw [Option.isSome_iff_exists] at this
    obtain ⟨scores, hs⟩ := this
    simp [predict_forward, hload, hs]

/-- Witness for C10: the evaluation call at `sample_size = batch_size = 25`
and the prediction pipeline with the saved dict of the same model. -/
theorem forward_batch_size_precondition_witness :
    ((25 : ℕ) = (demoModel 25).batch_size ∧
     (evaluate (demoModel 25) 25 (fun _ => 1) (fun _ _ => 0)).isSome) ∧
    (load_state_dict (demoModel 25) (demoModel 25).state_dict =
        some (demoModel 25) ∧
     (List.replicate 25 ([] : List ℕ)).length = (demoModel 25).batch_size ∧
     (predict_forward (demoModel 25) (demoModel 25).state_dict
        (List.replicate 25 [])).isSome) :=
  ⟨⟨rfl, forward_batch_size_precondition.2.1 (demoModel 25) 25 (fun _ => 1)
      (fun _ _ => 0) rfl⟩,
   ⟨by decide, by decide,
    forward_batch_size_precondition.2.2 (demoModel 25) (demoModel 25)
      (demoModel 25).state_dict (List.replicate 25 []) (by decide) (by decide)⟩⟩

/-- C8: saving the model's state dict and immediately reloading it into a
freshly constructed model of the same batch size succeeds and yields
identical evaluation-mode inference outputs on every input batch. -/
theorem save_load_roundtrip (m init : TxtClassifyModel) (xs : List ℚ)
    (hwf : m.wf) (hb : init.batch_size = m.batch_size) :
    ∃ m', load_state_dict init (save_then_load m.state_dict) = some m' ∧
      forward_scores m' xs = forward_scores m xs := by
  obtain ⟨h1, h2, h3, h4, h5, h6, h7, h8, h9, h10⟩ := hwf
  refine ⟨⟨init.batch_size, m.convW, m.convB, m.w1, m.b1, m.w2, m.b2,
    m.bnScale, m.bnShift⟩, ?_, ?_⟩
  · unfold load_state_dict save_then_load TxtClassifyModel.state_dict
    rw [if_pos]
    exact ⟨by rw [hb]; exact h1, by rw [hb]; exact h2, by rw [hb]; exact h3,
      h4, h5, h6, h7, h8, h9, h10⟩
  · have hm : (⟨init.batch_size, m.convW, m.convB, m.w1, m.b1, m.w2, m.b2,
        m.bnScale, m.bnShift⟩ : TxtClassifyModel) = m := by
      rw [hb]
    rw [hm]

/-- Witness for C8: round-trip of the all-ones 25-batch model. -/
theorem save_load_roundtrip_witness :
    (demoModel 25).wf ∧
    (demoModel 25).batch_size = (demoModel 25).batch_size ∧
    ∃ m', load_state_dict (demoModel 25)
        (save_then_load (demoModel 25).state_dict) = some m' ∧
      forward_scores m' [1] = forward_scores (demoModel 25) [1] :=
  ⟨by decide, rfl,
   save_load_roundtrip (demoModel 25) (demoModel 25) [1] (by decide) rfl⟩


theorem runEpoch_fst_aux {S I : Type} (step : S → I → S × ℚ) :
    ∀ (batches : List I) (s : S) (log : List ℚ),
      (batches.foldl
        (fun acc b => ((step acc.1 b).1, acc.2 ++ [(step acc.1 b).2]))
        (s, log)).1 = batches.foldl (fun t b => (step t b).1) s := by
  intro batches
  induction batches with
  | nil => intro s log; rfl
  | cons b bs ih => intro s log; exact ih _ _

theorem runEpoch_fst {S I : Type} (step : S → I → S × ℚ) (s : S)
    (batches : List I) :
    (runEpoch step s batches).1 = batches.foldl (fun t b => (step t b).1) s :=
  runEpoch_fst_aux step batches s []

theorem foldl_succ_count {I : Type} (f : ℕ → I → ℕ)
    (hf : ∀ t b, f t b = t + 1) :
    ∀ (batches : List I) (n : ℕ), batches.foldl f n = n + batches.length := by
  intro batches
  induction batches with
  | nil => intro n; simp
  | cons b bs ih =>
    intro n
    rw [List.foldl_cons, hf, ih]
    simp only [List.length_cons]
    omega

theorem trainLoop_succ {S I : Type} (step : S → I → S × ℚ)
    (evalF : S → ℕ → ℚ) (s0 : S) (batches : List I) (e : ℕ) :
    trainLoop step evalF s0 batches (e + 1) =
      ((runEpoch step (trainLoop step evalF s0 batches e).1 batches).1,
       (trainLoop step evalF s0 batches e).2 ++
         [(evalF (runEpoch step (trainLoop step evalF s0 batches e).1
             batches).1 e,
           meanQ (runEpoch step (trainLoop step evalF s0 batches e).1
             batches).2)]) := by
  unfold trainLoop
  rw [List.range_succ, List.foldl_append]
  rfl

theorem trainLoop_log_length {S I : Type} (step : S → I → S × ℚ)
    (evalF : S → ℕ → ℚ) (s0 : S) (batches : List I) :
    ∀ epochs, (trainLoop step evalF s0 batches epochs).2.length = epochs := by
  intro epochs
  induction epochs with
  | zero => rfl
  | succ e ih => rw [trainLoop_succ]; simp [ih]

/-- The C2 claim as the spec states it: in any input batch, each sample's
post-convolution row depends only on that same sample's pre-convolution data
(no mixing across batch positions) — so changing only *other* samples of the
batch never changes sample `i`'s row after the conv stage. -/
def conv_no_batch_mixing : Prop :=
  ∀ (m : TxtClassifyModel) (xs ys : List ℚ) (i : ℕ),
    xs.length = m.batch_size → ys.length = m.batch_size →
    xs.getD i 0 = ys.getD i 0 →
    ((postConv m xs).getD []).getD i [] = ((postConv m ys).getD []).getD i []

/-- Concrete evaluation of the conv stage on the all-ones model of batch
size 2: both output rows are the constant row `x + y` — each output sample
sums BOTH input samples. -/
theorem postConv_demoModel_two (x y : ℚ) (hx : 0 ≤ x) (hy : 0 ≤ y) :
    postConv (demoModel 2) [x, y] =
      some [List.replicate 26 (x + y), List.replicate 26 (x + y)] := by
  have hmx : max x 0 = x := max_eq_left hx
  have hmy : max y 0 = y := max_eq_left hy
  have hrF : ∀ l : List ℚ, List.replicate 2 l = [l, l] := fun l => rfl
  have hrQ : List.replicate 2 (1 : ℚ) = [1, 1] := rfl
  have hrZ : List.replicate 2 (0 : ℚ) = [0, 0] := rfl
  simp only [postConv, convApply, layer1Apply, bnApply, reluRow, convCombo,
    rowAdd, demoModel, List.zipWith_replicate, List.zip_replicate,
    List.map_replicate, List.map_cons, List.map_nil, List.zipWith_cons_cons,
    List.zipWith_nil_right, List.zipWith_nil_left, List.foldr_cons,
    List.foldr_nil, List.length_cons, List.length_nil, one_mul, mul_one,
    add_zero, zero_add, min_self, hmx, hmy, hrF, hrQ, hrZ]
  norm_num

/-- Counterexample to C2: with the all-ones model of batch size 2, sample 0
keeps the same input in the batches `[1, 1]` and `[1, 2]`, yet its
post-convolution row changes (the conv sums over the batch dimension, which
it treats as channels). -/
theorem conv_mixes_across_batch : ¬ conv_no_batch_mixing := by
  intro h
  have h01 := h (demoModel 2) [1, 1] [1, 2] 0 rfl rfl rfl
  rw [postConv_demoModel_two 1 1 (by norm_num) (by norm_num),
      postConv_demoModel_two 1 2 (by norm_num) (by norm_num)] at h01
  simp only [Option.getD_some, List.getD_cons_zero] at h01
  have h2 : ((1 : ℚ) + 1) = (1 : ℚ) + 2 :=
    congrArg (fun l => l.headD 0) h01
  norm_num at h2

/-- C2 amended: the kernel-1 convolution stage mixes across batch positions:
sample `o`'s post-convolution row is `convB o + Σᵢ convW o i • rowᵢ`, a
learned affine combination of all samples' pre-convolution rows; it is not a
per-sample reweighting, and in general genuinely depends on the other
samples of the batch. -/
theorem conv_batch_mixing_formula (m : TxtClassifyModel) (xs : List ℚ)
    (h : xs.length = m.batch_size) :
    (postConv m xs = some (List.zipWith
      (fun wrow bo => (convCombo wrow
        ((xs.map (layer1Apply m.w1 m.b1)).map
          (fun r => reluRow (bnApply m.bnScale m.bnShift r)))).map (· + bo))
      m.convW m.convB)) ∧
    ¬ conv_no_batch_mixing := by
  constructor
  · simp [postConv, convApply, h]
  · intro hno
    have h01 := hno (demoModel 2) [1, 1] [1, 2] 0 rfl rfl rfl
    rw [postConv_demoModel_two 1 1 (by norm_num) (by norm_num),
        postConv_demoModel_two 1 2 (by norm_num) (by norm_num)] at h01
    simp only [Option.getD_some, List.getD_cons_zero] at h01
    have h2 : ((1 : ℚ) + 1) = (1 : ℚ) + 2 :=
      congrArg (fun l => l.headD 0) h01
    norm_num at h2

/-- Witness for the amended C2 on the all-ones model of batch size 2. -/
theorem conv_batch_mixing_formula_witness :
    ([1, 1] : List ℚ).length = (demoModel 2).batch_size ∧
    ∃ out, postConv (demoModel 2) [1, 1] = some out :=
  ⟨by decide,
   ⟨_, (conv_batch_mixing_formula (demoModel 2) [1, 1] (by decide)).1⟩⟩

/-- C7: the driver trains for a fixed number of epochs over one fixed
synthetic training set: each epoch iterates over the
`train_sample / batch_size` consecutive fixed-size slices of the fixed
training lists, performs exactly one optimizer step per batch, and after each
epoch evaluates on a freshly generated synthetic batch and appends that
epoch's `(accuracy, mean loss)` to the log — so the log has one entry per
epoch, and `main` produces `epoch_num` of them. -/
theorem main_training_loop_shape :
    (∀ (crcl : List (List ℕ)) (labels : List ℕ),
      (mainBatches batch_size train_sample crcl labels).length =
        train_sample / batch_size) ∧
    (∀ (crcl : List (List ℕ)) (labels : List ℕ) (i : ℕ),
      i < train_sample / batch_size →
      i * batch_size + batch_size ≤ crcl.length →
      i * batch_size + batch_size ≤ labels.length →
      (mainBatches batch_size train_sample crcl labels)[i]? =
        some ((crcl.drop (i * batch_size)).take batch_size,
          (labels.drop (i * batch_size)).take batch_size) ∧
      ((crcl.drop (i * batch_size)).take batch_size).length = batch_size ∧
      ((labels.drop (i * batch_size)).take batch_size).length = batch_size) ∧
    (∀ (S I : Type) (step : S → I → S × ℚ) (evalF : S → ℕ → ℚ) (s0 : S)
      (batches : List I) (epochs : ℕ),
      (trainLoop step evalF s0 batches epochs).2.length = epochs) ∧
    (∀ (I : Type) (lossF : ℕ → I → ℚ) (evalF : ℕ → ℕ → ℚ) (batches : List I)
      (epochs : ℕ),
      (trainLoop (fun n b => (n + 1, lossF n b)) evalF 0 batches epochs).1 =
        epochs * batches.length) ∧
    (∀ (S I : Type) (step : S → I → S × ℚ) (evalF : S → ℕ → ℚ) (s0 : S)
      (batches : List I) (e : ℕ),
      trainLoop step evalF s0 batches (e + 1) =
        ((runEpoch step (trainLoop step evalF s0 batches e).1 batches).1,
         (trainLoop step evalF s0 batches e).2 ++
           [(evalF (runEpoch step (trainLoop step evalF s0 batches e).1
               batches).1 e,
             meanQ (runEpoch step (trainLoop step evalF s0 batches e).1
               batches).2)])) ∧
    (∀ (S : Type) (step : S → List (List ℕ) × List ℕ → S × ℚ)
      (evalF : S → ℕ → ℚ) (s0 : S) (lenDraws : ℕ → ℕ)
      (letterDraws : ℕ → ℕ → Fin 26),
      (main_train step evalF s0 lenDraws letterDraws).2.length = epoch_num) := by
  refine ⟨?_, ?_, ?_, ?_, ?_, ?_⟩
  · intro crcl labels
    simp [mainBatches]
  · intro crcl labels i hi hc hl
    refine ⟨?_, ?_, ?_⟩
    · simp [mainBatches, List.getElem?_map, List.getElem?_range, hi]
    · simp only [List.length_take, List.length_drop]
      omega
    · simp only [List.length_take, List.length_drop]
      omega
  · intro S I step evalF s0 batches epochs
    exact trainLoop_log_length step evalF s0 batches epochs
  · intro I lossF evalF batches epochs
    induction epochs with
    | zero => simp [trainLoop]
    | succ e ih =>
      rw [trainLoop_succ, runEpoch_fst,
        foldl_succ_count _ (fun t b => rfl), ih, Nat.succ_mul]
  · intro S I step evalF s0 batches e
    exact trainLoop_succ step evalF s0 batches e
  · intro S step evalF s0 lenDraws letterDraws
    exact trainLoop_log_length step evalF s0 _ epoch_num

/-- Witness for C7: the fourth batch slice of a 100-sample training list, at
the driver's constants `batch_size = 25`, `train_sample = 5000`. -/
theorem main_training_loop_shape_witness :
    (3 < train_sample / batch_size ∧
     3 * batch_size + batch_size ≤ (List.replicate 100 ([] : List ℕ)).length ∧
     3 * batch_size + batch_size ≤ (List.replicate 100 (0 : ℕ)).length) ∧
    ((mainBatches batch_size train_sample (List.replicate 100 [])
        (List.replicate 100 0))[3]? =
      some (((List.replicate 100 ([] : List ℕ)).drop (3 * batch_size)).take
          batch_size,
        ((List.replicate 100 (0 : ℕ)).drop (3 * batch_size)).take batch_size) ∧
     (((List.replicate 100 ([] : List ℕ)).drop (3 * batch_size)).take
        batch_size).length = batch_size ∧
     (((List.replicate 100 (0 : ℕ)).drop (3 * batch_size)).take
        batch_size).length = batch_size) :=
  ⟨⟨by decide, by simp [batch_size], by simp [batch_size]⟩,
   main_training_loop_shape.2.1 (List.replicate 100 []) (List.replicate 100 0)
     3 (by decide) (by simp [batch_size]) (by simp [batch_size])⟩

end TxtClassify
